import Mathlib

/-!
Verification of the rtracer ray-tracing core against its specification.

The Rust sources are shallowly embedded over an arbitrary linear ordered
field `α` (instantiated at `ℚ` for concrete evaluations); `f64` values are
modelled as exact field elements.  Calls to `f64::sqrt` are modelled by an
explicit function parameter `sq : α → α`, so theorems quantify over the
square-root routine and witnesses may instantiate it concretely.
-/

namespace RT

variable {α : Type} [LinearOrderedField α]

/-- `EPSILON` from `lib.rs`: the global comparison tolerance `0.0001`. -/
def EPSILON : α := 1 / 10000

/-- `float_eq` from `lib.rs`: `(a - b).abs() < EPSILON`. -/
def floatEq (a b : α) : Bool := |a - b| < (EPSILON : α)

/-- `float_cmp` from `lib.rs`: epsilon-aware three-way comparison. -/
def floatCmp (a b : α) : Ordering :=
  if floatEq a b then Ordering.eq
  else if a < b then Ordering.lt
  else Ordering.gt

/-- `Vector` from `vector.rs` (x, y, z components). -/
structure Vector (α : Type) where
  x : α
  y : α
  z : α
deriving DecidableEq, Repr

/-- `Point` from `point.rs` (x, y, z components). -/
structure Point (α : Type) where
  x : α
  y : α
  z : α
deriving DecidableEq, Repr

/-- `RGB` from `color.rs`. -/
structure RGB (α : Type) where
  red : α
  green : α
  blue : α
deriving DecidableEq, Repr

/-- `BLACK` from `color.rs`. -/
def BLACK : RGB α := ⟨0, 0, 0⟩

/-- `WHITE` from `color.rs`. -/
def WHITE : RGB α := ⟨1, 1, 1⟩

/-- `impl Add for RGB`: componentwise sum. -/
def RGB.add (a b : RGB α) : RGB α := ⟨a.red + b.red, a.green + b.green, a.blue + b.blue⟩

/-- `impl Mul<f64> for RGB`: scalar multiple. -/
def RGB.smul (a : RGB α) (s : α) : RGB α := ⟨a.red * s, a.green * s, a.blue * s⟩

/-- `impl Mul<RGB> for RGB`: Hadamard (componentwise) product. -/
def RGB.hmul (a b : RGB α) : RGB α := ⟨a.red * b.red, a.green * b.green, a.blue * b.blue⟩

/-- `Vector::dot` from `vector.rs`. -/
def Vector.dot (a b : Vector α) : α := a.x * b.x + a.y * b.y + a.z * b.z

/-- `impl Sub for Vector`. -/
def Vector.sub (a b : Vector α) : Vector α := ⟨a.x - b.x, a.y - b.y, a.z - b.z⟩

/-- `impl Neg for Vector`. -/
def Vector.neg (v : Vector α) : Vector α := ⟨-v.x, -v.y, -v.z⟩

/-- `impl Sub for Point`: point minus point is a vector. -/
def Point.subp (a b : Point α) : Vector α := ⟨a.x - b.x, a.y - b.y, a.z - b.z⟩

/-- `impl Add<Vector> for Point`. -/
def Point.addv (p : Point α) (v : Vector α) : Point α := ⟨p.x + v.x, p.y + v.y, p.z + v.z⟩

/-- `impl Mul<f64> for Vector`. -/
def Vector.smul (v : Vector α) (s : α) : Vector α := ⟨v.x * s, v.y * s, v.z * s⟩

/-- `Vector::magnitude` from `vector.rs`; the `f64::sqrt` call is the
explicit parameter `sq`. -/
def Vector.magnitudeW (sq : α → α) (v : Vector α) : α :=
  sq (v.x ^ 2 + v.y ^ 2 + v.z ^ 2)

/-- `Vector::normalize` from `vector.rs`: componentwise division by the
magnitude, with no guard against a zero magnitude. -/
def Vector.normalizeW (sq : α → α) (v : Vector α) : Vector α :=
  let mag := Vector.magnitudeW sq v
  ⟨v.x / mag, v.y / mag, v.z / mag⟩

/-- Modelled from the spec: `Vector::reflect` (reflect-about-normal), absent
from the stale `vector.rs` snapshot but called by `intersection.rs` and
`material.rs`; the standard formula `v - normal * 2 * v.dot(normal)`. -/
def Vector.reflect (v n : Vector α) : Vector α :=
  ⟨v.x - n.x * (2 * Vector.dot v n),
   v.y - n.y * (2 * Vector.dot v n),
   v.z - n.z * (2 * Vector.dot v n)⟩

/-- `Ray` from `ray.rs`. -/
structure Ray (α : Type) where
  origin : Point α
  direction : Vector α
deriving DecidableEq, Repr

/-- `Ray::position`: `origin + direction * t`. -/
def Ray.position (r : Ray α) (t : α) : Point α :=
  Point.addv r.origin (Vector.smul r.direction t)

/-- `Intersection` from `intersection.rs`, generic in the referenced object
(the Rust field is `&dyn Shape`). -/
structure Intersection (α σ : Type) where
  t : α
  obj : σ
deriving DecidableEq, Repr

/-- The reduction step of Rust's `Iterator::min` (`cmp::min_by`): keep the
accumulator unless it compares strictly greater than the next element. -/
def hitStep {σ : Type} (acc i : Intersection α σ) : Intersection α σ :=
  if floatCmp acc.t i.t = Ordering.gt then i else acc

/-- `Intersection::hit` from `intersection.rs`:
`xs.iter().filter(|x| x.t >= 0.0).min()` where `min` uses the epsilon-aware
`Ord` instance (`float_cmp` on `t`) and keeps the earlier element on a tie. -/
def Intersection.hit {σ : Type} (xs : List (Intersection α σ)) :
    Option (Intersection α σ) :=
  match xs.filter (fun i => decide (0 ≤ i.t)) with
  | [] => none
  | y :: ys => some (ys.foldl hitStep y)

/-- `Matrix` from `matrix.rs`: a 4x4 row-major array.  Rows are modelled as
lists; reads outside the stored entries yield `0`, matching
`Matrix::default()` zero padding used by `sub_matrix`. -/
structure Matrix (α : Type) where
  data : List (List α)
deriving DecidableEq, Repr

/-- Indexing `self[r][c]`; out-of-range reads give the `Default` zero. -/
def Matrix.mget (m : Matrix α) (r c : Nat) : α := (m.data.getD r []).getD c 0

/-- `IDENTITY` from `matrix.rs`. -/
def IDENTITY : Matrix α :=
  ⟨[[1, 0, 0, 0], [0, 1, 0, 0], [0, 0, 1, 0], [0, 0, 0, 1]]⟩

/-- `impl Mul for Matrix`: the 4x4 product with the inner `k` loop
unrolled exactly as in the source. -/
def Matrix.mul (a b : Matrix α) : Matrix α :=
  ⟨(List.range 4).map (fun r => (List.range 4).map (fun c =>
      a.mget r 0 * b.mget 0 c + a.mget r 1 * b.mget 1 c +
      a.mget r 2 * b.mget 2 c + a.mget r 3 * b.mget 3 c))⟩

/-- `Matrix::transpose`. -/
def Matrix.transpose (m : Matrix α) : Matrix α :=
  ⟨(List.range 4).map (fun r => (List.range 4).map (fun c => m.mget c r))⟩

/-- `impl Mul<Point> for Matrix`: rows 0-2 applied to `(x, y, z, 1)`; the
fourth row is dropped (the result is again a `Point` with implicit `w = 1`). -/
def Matrix.mulPoint (m : Matrix α) (p : Point α) : Point α :=
  ⟨m.mget 0 0 * p.x + m.mget 0 1 * p.y + m.mget 0 2 * p.z + m.mget 0 3 * 1,
   m.mget 1 0 * p.x + m.mget 1 1 * p.y + m.mget 1 2 * p.z + m.mget 1 3 * 1,
   m.mget 2 0 * p.x + m.mget 2 1 * p.y + m.mget 2 2 * p.z + m.mget 2 3 * 1⟩

/-- `impl Mul<Vector> for Matrix`: rows 0-2 applied to `(x, y, z, 0)`. -/
def Matrix.mulVector (m : Matrix α) (v : Vector α) : Vector α :=
  ⟨m.mget 0 0 * v.x + m.mget 0 1 * v.y + m.mget 0 2 * v.z + m.mget 0 3 * 0,
   m.mget 1 0 * v.x + m.mget 1 1 * v.y + m.mget 1 2 * v.z + m.mget 1 3 * 0,
   m.mget 2 0 * v.x + m.mget 2 1 * v.y + m.mget 2 2 * v.z + m.mget 2 3 * 0⟩

/-- `Matrix::sub_matrix`: drop row `r` and column `c`; the result is a 3x3
array (reads at index 3 fall back to the zero padding of `mget`). -/
def Matrix.subMatrix (m : Matrix α) (r c : Nat) : Matrix α :=
  ⟨((List.range 4).filter (fun x => x != r)).map (fun ri =>
      ((List.range 4).filter (fun x => x != c)).map (fun ci => m.mget ri ci))⟩

/-- `Matrix::determinant` with the dimension parameter `s`: `if s == 2` the
2x2 base case, otherwise cofactor expansion along row 0 (the column loop
always runs `0..4`, relying on zero padding for smaller dimensions).  The
source's mutual recursion through `cofactor`/`minor` is flattened here for
structural termination; `Matrix.cofactor` and `Matrix.minor` below are the
same bodies, and row-0 cofactor calls appear inlined.  `s = 0` would
underflow `s - 1` in the source and is unreachable (only 4, 3, 2 occur). -/
def Matrix.determinant : Nat → Matrix α → α
  | 0, _ => 0
  | s + 1, m =>
      if s + 1 = 2 then m.mget 0 0 * m.mget 1 1 - m.mget 0 1 * m.mget 1 0
      else
        ((List.range 4).map (fun c =>
            m.mget 0 c *
              (if (0 + c) % 2 = 1
               then -(Matrix.determinant s (m.subMatrix 0 c))
               else Matrix.determinant s (m.subMatrix 0 c)))).sum

/-- `Matrix::minor`: determinant of the submatrix. -/
def Matrix.minor (s : Nat) (m : Matrix α) (r c : Nat) : α :=
  Matrix.determinant s (m.subMatrix r c)

/-- `Matrix::cofactor`: the minor, negated when `r + c` is odd. -/
def Matrix.cofactor (s : Nat) (m : Matrix α) (r c : Nat) : α :=
  if (r + c) % 2 = 1 then -(Matrix.minor s m r c) else Matrix.minor s m r c

/-- `Matrix::is_invertible`: the determinant is not exactly zero. -/
def Matrix.isInvertible (s : Nat) (m : Matrix α) : Bool :=
  !(decide (m.determinant s = 0))

/-- `Matrix::inverse`: `Err` when not invertible, otherwise the cofactor
matrix construction `inverse[c][r] = cofactor(r, c, s - 1) / det` (entries
outside the `0..s` loops keep the `Default` zero). -/
def Matrix.inverse (s : Nat) (m : Matrix α) : Except String (Matrix α) :=
  if m.isInvertible s then
    .ok ⟨(List.range 4).map (fun i => (List.range 4).map (fun j =>
        if i < s ∧ j < s then Matrix.cofactor (s - 1) m j i / m.determinant s
        else 0))⟩
  else
    .error "Matrix is not invertible!"

/-- `Ray::transform` from `ray.rs`. -/
def Ray.transform (r : Ray α) (m : Matrix α) : Ray α :=
  ⟨m.mulPoint r.origin, m.mulVector r.direction⟩

/-- `Transformation` from `transformations.rs`: a wrapper around the same
4x4 row-major data. -/
structure Transformation (α : Type) where
  data : List (List α)
deriving DecidableEq, Repr

/-- `Transformation::new`: the identity. -/
def Transformation.new : Transformation α :=
  ⟨[[1, 0, 0, 0], [0, 1, 0, 0], [0, 0, 1, 0], [0, 0, 0, 1]]⟩

/-- `Transformation::init`: view the data as a `Matrix`. -/
def Transformation.init (t : Transformation α) : Matrix α := ⟨t.data⟩

/-- `impl Mul for Transformation`: `(self.init() * rhs.init()).get_data()`. -/
def Transformation.tmul (a b : Transformation α) : Transformation α :=
  ⟨(Matrix.mul a.init b.init).data⟩

/-- `Transformation::translation`: build the translation matrix and
left-multiply it onto the accumulated transformation (`trans * self`). -/
def Transformation.translation (t : Transformation α) (x y z : α) : Transformation α :=
  Transformation.tmul
    ⟨[[1, 0, 0, x], [0, 1, 0, y], [0, 0, 1, z], [0, 0, 0, 1]]⟩ t

/-- `Transformation::scaling` (`scale * self`). -/
def Transformation.scaling (t : Transformation α) (x y z : α) : Transformation α :=
  Transformation.tmul
    ⟨[[x, 0, 0, 0], [0, y, 0, 0], [0, 0, z, 0], [0, 0, 0, 1]]⟩ t

/-- `Transformation::rotate_x` (`rot * self`); the `rad.cos()` / `rad.sin()`
calls are the explicit parameters `cosF` / `sinF`. -/
def Transformation.rotateX (cosF sinF : α → α) (t : Transformation α) (rad : α) :
    Transformation α :=
  Transformation.tmul
    ⟨[[1, 0, 0, 0],
      [0, cosF rad, -(sinF rad), 0],
      [0, sinF rad, cosF rad, 0],
      [0, 0, 0, 1]]⟩ t

/-- `Transformation::rotate_y` (`rot * self`). -/
def Transformation.rotateY (cosF sinF : α → α) (t : Transformation α) (rad : α) :
    Transformation α :=
  Transformation.tmul
    ⟨[[cosF rad, 0, sinF rad, 0],
      [0, 1, 0, 0],
      [-(sinF rad), 0, cosF rad, 0],
      [0, 0, 0, 1]]⟩ t

/-- `Transformation::rotate_z` (`rot * self`). -/
def Transformation.rotateZ (cosF sinF : α → α) (t : Transformation α) (rad : α) :
    Transformation α :=
  Transformation.tmul
    ⟨[[cosF rad, -(sinF rad), 0, 0],
      [sinF rad, cosF rad, 0, 0],
      [0, 0, 1, 0],
      [0, 0, 0, 1]]⟩ t

/-- `Transformation::shearing` (`shear * self`).  Note the fourth row of the
shear matrix in the source is `[0.0, 0.0, 0.0, 0.0]` — all zeros. -/
def Transformation.shearing (t : Transformation α) (xy xz yx yz zx zy : α) :
    Transformation α :=
  Transformation.tmul
    ⟨[[1, xy, xz, 0], [yx, 1, yz, 0], [zx, zy, 1, 0], [0, 0, 0, 0]]⟩ t

/-- One step of a `Transformation` builder chain. -/
inductive Step (α : Type) where
  | translationS (x y z : α)
  | scalingS (x y z : α)
  | rotXS (rad : α)
  | rotYS (rad : α)
  | rotZS (rad : α)
  | shearS (xy xz yx yz zx zy : α)
deriving DecidableEq, Repr

/-- The basic matrix the source constructs for a builder step. -/
def Step.matrix (cosF sinF : α → α) : Step α → Transformation α
  | .translationS x y z => ⟨[[1, 0, 0, x], [0, 1, 0, y], [0, 0, 1, z], [0, 0, 0, 1]]⟩
  | .scalingS x y z => ⟨[[x, 0, 0, 0], [0, y, 0, 0], [0, 0, z, 0], [0, 0, 0, 1]]⟩
  | .rotXS rad =>
      ⟨[[1, 0, 0, 0], [0, cosF rad, -(sinF rad), 0], [0, sinF rad, cosF rad, 0],
        [0, 0, 0, 1]]⟩
  | .rotYS rad =>
      ⟨[[cosF rad, 0, sinF rad, 0], [0, 1, 0, 0], [-(sinF rad), 0, cosF rad, 0],
        [0, 0, 0, 1]]⟩
  | .rotZS rad =>
      ⟨[[cosF rad, -(sinF rad), 0, 0], [sinF rad, cosF rad, 0, 0], [0, 0, 1, 0],
        [0, 0, 0, 1]]⟩
  | .shearS xy xz yx yz zx zy =>
      ⟨[[1, xy, xz, 0], [yx, 1, yz, 0], [zx, zy, 1, 0], [0, 0, 0, 0]]⟩

/-- Apply one builder call to an accumulated transformation. -/
def Step.apply (cosF sinF : α → α) (t : Transformation α) : Step α → Transformation α
  | .translationS x y z => t.translation x y z
  | .scalingS x y z => t.scaling x y z
  | .rotXS rad => Transformation.rotateX cosF sinF t rad
  | .rotYS rad => Transformation.rotateY cosF sinF t rad
  | .rotZS rad => Transformation.rotateZ cosF sinF t rad
  | .shearS xy xz yx yz zx zy => t.shearing xy xz yx yz zx zy

/-- A full builder chain `Transformation::new().s1()...sn()`, read left to
right. -/
def chainApply (cosF sinF : α → α) (t : Transformation α) (steps : List (Step α)) :
    Transformation α :=
  steps.foldl (Step.apply cosF sinF) t

/-- Whether a builder step is a `shearing` call. -/
def Step.isShear : Step α → Bool
  | .shearS _ _ _ _ _ _ => true
  | _ => false

/-- The accumulated matrix has the affine homogeneous row `(0, 0, 0, 1)`. -/
def affineRow3 (t : Transformation α) : Prop :=
  t.init.mget 3 0 = 0 ∧ t.init.mget 3 1 = 0 ∧ t.init.mget 3 2 = 0 ∧ t.init.mget 3 3 = 1

/-- The accumulated matrix has an all-zero fourth row (the state after any
`shearing` step). -/
def row3Zero (t : Transformation α) : Prop :=
  t.init.mget 3 0 = 0 ∧ t.init.mget 3 1 = 0 ∧ t.init.mget 3 2 = 0 ∧ t.init.mget 3 3 = 0

/-- A shape as seen by the default `Shape::intersect` of `shapes.rs`: its
transformation plus its `local_intersect` capability. -/
structure ShapeD (α σ : Type) where
  transform : Transformation α
  localIntersect : Ray α → Option (List (Intersection α σ))

/-- The default `Shape::intersect` from `shapes.rs` (lines 44-52): transform
the ray by the inverse of the shape's transform and delegate to
`local_intersect`; a non-invertible transform panics through
`.expect(...)`, modelled as `Except.error` with the panic message. -/
def ShapeD.intersect {σ : Type} (s : ShapeD α σ) (ray : Ray α) :
    Except String (Option (List (Intersection α σ))) :=
  match (s.transform.init).inverse 4 with
  | .error _ => .error "The transformation matrix should invertible!"
  | .ok inv => .ok (s.localIntersect (ray.transform inv))

/-- The `Sphere` of `shapes/sphere.rs` as its own `intersect` sees it: only
the transformation matters. -/
structure SphereS (α : Type) where
  transform : Transformation α

/-- `Sphere::intersect` from `shapes/sphere.rs` (lines 57-79): unlike the
trait default of `shapes.rs`, a failed inversion `return None` — an
ordinary "no intersection" result, not a panic.  `discriminant.sqrt()` is
the parameter `sq`. -/
def SphereS.intersect (sq : α → α) (s : SphereS α) (ray : Ray α) :
    Option (List (Intersection α Unit)) :=
  match (s.transform.init).inverse 4 with
  | .error _ => none
  | .ok inv =>
      let rayT := ray.transform inv
      let sphereToRay := Point.subp rayT.origin ⟨0, 0, 0⟩
      let a := Vector.dot rayT.direction rayT.direction
      let b := 2 * Vector.dot rayT.direction sphereToRay
      let c := Vector.dot sphereToRay sphereToRay - 1
      let discriminant := b * b - 4 * a * c
      if discriminant < 0 then none
      else
        some [⟨(-b - sq discriminant) / (2 * a), ()⟩,
              ⟨(-b + sq discriminant) / (2 * a), ()⟩]

section PatternDefs

variable [FloorRing α]

/-- Rust `f64` truncation toward zero (used by the `%` operator). -/
def rustTrunc (a : α) : ℤ := if a < 0 then ⌈a⌉ else ⌊a⌋

/-- Rust's `%` on `f64`: `a - b * trunc(a / b)` (remainder with the sign of
the dividend). -/
def rustRem (a b : α) : α := a - b * (rustTrunc (a / b) : ℤ)

/-- Rust's saturating `as i32` cast applied to an integral `f64` value. -/
def satI32 (z : ℤ) : ℤ := max (-(2 ^ 31)) (min (2 ^ 31 - 1) z)

/-- `Checkers::pattern_at` from `pattern/checkers.rs`:
`float_eq((x.floor() + y.floor() + z.floor()) % 2.0, 0.0)` picks color `a`,
else `b`. -/
def Checkers.patternAt (a b : RGB α) (p : Point α) : RGB α :=
  let tmp : α := ((⌊p.x⌋ + ⌊p.y⌋ + ⌊p.z⌋ : ℤ) : α)
  if floatEq (rustRem tmp 2) 0 then a else b

/-- `Stripes::stripe_at` from `pattern/stripes.rs`:
`point.x.floor() as i32 % 2 == 0` picks color `a`, else `b`; the `as i32`
cast saturates and `%` on `i32` is the truncated remainder. -/
def Stripes.stripeAt (a b : RGB α) (p : Point α) : RGB α :=
  if Int.tmod (satI32 ⌊p.x⌋) 2 = 0 then a else b

end PatternDefs

/-- `Material` as the intersection/shading code uses it.  Modelled from the
spec: the current `Material` (with `reflective`, `transparency`,
`refractive_index` and an optional pattern), called by `intersection.rs` and
`world.rs`, is missing from src — `material.rs` is a stale snapshot without
those fields; the fields follow spec section 3.  `shininess` is `ℕ` so the
`powf` of the Phong specular term is an exact iterated product, and the
pattern is its sampling function (spec 4.2: a per-point color rule). -/
structure Material (α : Type) where
  color : RGB α
  ambient : α
  diffuse : α
  specular : α
  shininess : ℕ
  reflective : α
  transparency : α
  refractive_index : α
  pattern : Option (Point α → RGB α)

/-- A shape reference as `Intersection`/`Computation`/`Material::lightning`
use it through the `Shape` trait object: id-based identity, the material,
and the `normal_at` capability (dynamic dispatch modelled as a function
field). -/
structure Obj (α : Type) where
  id : ℕ
  material : Material α
  normalAt : Point α → Vector α

/-- `impl PartialEq for dyn Shape` (shapes.rs): equality by unique id. -/
def objEq (a b : Obj α) : Bool := a.id == b.id

/-- `impl PartialEq for Intersection`:
`float_eq(self.t, other.t) && self.object.eq(other.object)`. -/
def ieq (a b : Intersection α (Obj α)) : Bool :=
  floatEq a.t b.t && objEq a.obj b.obj

/-- One iteration of the container bookkeeping in `prepare_computations`
(intersection.rs lines 59-63): remove the object when the container already
holds it (membership test by id, not LIFO order), else push it. -/
def containerUpdate (st : List (Obj α)) (o : Obj α) : List (Obj α) :=
  if st.any (fun x => objEq x o) then st.filter (fun x => !(objEq x o)) else st ++ [o]

/-- The refractive index of the top of the container: `1.0` when empty
(vacuum), else the `refractive_index` of the most recently pushed object
(`container.last()`). -/
def topRefractive (st : List (Obj α)) : α :=
  match st.getLast? with
  | none => 1
  | some o => o.material.refractive_index

/-- The `n1`/`n2` loop of `prepare_computations` (intersection.rs lines
47-74): walk `xs`, maintaining the container; at the first element equal to
`self` (epsilon `t`-equality plus id equality) read `n1` before and `n2`
after the container update, then break.  If `self` never occurs the loop
falls through with the initial `n1 = n2 = 0.0`. -/
def n1n2Loop (self : Intersection α (Obj α)) :
    List (Intersection α (Obj α)) → List (Obj α) → α × α
  | [], _ => (0, 0)
  | i :: rest, container =>
      if ieq i self then
        (topRefractive container, topRefractive (containerUpdate container i.obj))
      else n1n2Loop self rest (containerUpdate container i.obj)

/-- `Computation` from `computations.rs`. -/
structure Computation (α : Type) where
  t : α
  object : Obj α
  point : Point α
  eyev : Vector α
  normalv : Vector α
  inside : Bool
  over_point : Point α
  under_point : Point α
  reflectv : Vector α
  n1 : α
  n2 : α

/-- `point - vector` (used for `under_point`). -/
def Point.subv (p : Point α) (v : Vector α) : Point α :=
  ⟨p.x - v.x, p.y - v.y, p.z - v.z⟩

/-- `Intersection::prepare_computations` from `intersection.rs`: the surface
point, eye/normal vectors (normal flipped and `inside` set when the hit is
from inside), the epsilon-offset over/under points, the reflection vector,
and the `n1`/`n2` refractive pair from the container walk.  The
`normal_at` dispatch is the object's `normalAt` field. -/
def Intersection.prepareComputations (self : Intersection α (Obj α)) (r : Ray α)
    (xs : List (Intersection α (Obj α))) : Computation α :=
  let point := r.position self.t
  let eyev := Vector.neg r.direction
  let normalv0 := self.obj.normalAt point
  let inside := decide (Vector.dot normalv0 eyev < 0)
  let normalv := if Vector.dot normalv0 eyev < 0 then Vector.neg normalv0 else normalv0
  let overPoint := Point.addv point (Vector.smul normalv EPSILON)
  let underPoint := Point.subv point (Vector.smul normalv EPSILON)
  let reflectv := Vector.reflect r.direction normalv
  let n := n1n2Loop self xs []
  ⟨self.t, self.obj, point, eyev, normalv, inside, overPoint, underPoint, reflectv,
   n.1, n.2⟩

/-- `Computation::schlick` from `computations.rs`: on total internal
reflection (`n1 > n2` and `sin²θt > 1`) return `1.0`; otherwise the Schlick
blend `r0 + (1 - r0)(1 - cos)⁵`, with the cosine replaced by
`cos θt = sqrt(1 - sin²θt)` when `n1 > n2`.  The early `return 1.0` makes
the shared tail appear in both branches here. -/
def Computation.schlick (sq : α → α) (c : Computation α) : α :=
  let cos := Vector.dot c.eyev c.normalv
  if c.n1 > c.n2 then
    let n := c.n1 / c.n2
    let sin2t := n ^ 2 * (1 - cos ^ 2)
    if sin2t > 1 then 1
    else
      let cosT := sq (1 - sin2t)
      let r0 := ((c.n1 - c.n2) / (c.n1 + c.n2)) ^ 2
      r0 + (1 - r0) * (1 - cosT) ^ 5
  else
    let r0 := ((c.n1 - c.n2) / (c.n1 + c.n2)) ^ 2
    r0 + (1 - r0) * (1 - cos) ^ 5

/-- `PointLight` from `light.rs`. -/
structure PointLight (α : Type) where
  position : Point α
  intensity : RGB α

/-- `Material::lightning`.  Modelled from the spec (section 4.3): the
current implementation (with shadow handling and optional pattern) is
missing from src — `material.rs` is a stale snapshot whose `lightning`
lacks the `in_shadow` diffuse/specular cutoff position required by
`world.rs`.  Steps: effective color (pattern sample or flat color, Hadamard
with the light intensity), ambient term, diffuse/specular black when
shadowed or the light is behind the surface, else the Phong diffuse and
specular terms. -/
def Material.lightning (sq : α → α) (m : Material α) (light : PointLight α)
    (position : Point α) (eyev normalv : Vector α) (inShadow : Bool) : RGB α :=
  let color := match m.pattern with
    | some pat => pat position
    | none => m.color
  let effectiveColor := RGB.hmul color light.intensity
  let lightv := Vector.normalizeW sq (Point.subp light.position position)
  let ambient := RGB.smul effectiveColor m.ambient
  let lightDotNormal := Vector.dot lightv normalv
  if lightDotNormal ≤ 0 ∨ inShadow = true then
    RGB.add (RGB.add ambient BLACK) BLACK
  else
    let diffuse := RGB.smul effectiveColor (m.diffuse * lightDotNormal)
    let reflectv := Vector.reflect (Vector.neg lightv) normalv
    let reflectDotEye := Vector.dot reflectv eyev
    let specular := if reflectDotEye ≤ 0 then BLACK
      else RGB.smul light.intensity (m.specular * reflectDotEye ^ m.shininess)
    RGB.add (RGB.add ambient diffuse) specular

/-- A world object through the `Shape` trait: its identity/material/normal
capability plus its public `intersect` (the transform plumbing happens
behind the dispatch). -/
structure ShapeW (α : Type) where
  obj : Obj α
  intersect : Ray α → Option (List (Intersection α (Obj α)))

/-- `World` from `world.rs`: owned shapes plus at most one light. -/
structure World (α : Type) where
  objects : List (ShapeW α)
  light : Option (PointLight α)

/-- `World::intersect_world`: concatenate every object's intersections
(skipping `None`s), `None` when empty, else sort ascending by the
epsilon-aware `t` comparison (`sort_by(partial_cmp)`, a stable sort). -/
def World.intersectWorld (w : World α) (ray : Ray α) :
    Option (List (Intersection α (Obj α))) :=
  let xs := (w.objects.map (fun o => (o.intersect ray).getD [])).flatten
  if xs.length = 0 then none
  else some (xs.mergeSort (fun a b => !(floatCmp a.t b.t == Ordering.gt)))

/-- `World::is_shadowed` from `world.rs` (lines 120-135): cast a ray from
`p` toward the light (`self.light.expect(..)` panics without a light,
modelled as `Except.error`); shadowed exactly when the hit's `t` is
strictly below the distance to the light. -/
def World.isShadowed (sq : α → α) (w : World α) (p : Point α) :
    Except String Bool :=
  match w.light with
  | none => .error "World has no light!"
  | some light =>
      let v := Point.subp light.position p
      let distance := Vector.magnitudeW sq v
      let direction := Vector.normalizeW sq v
      let r : Ray α := ⟨p, direction⟩
      .ok (match w.intersectWorld r with
        | some intersections =>
            match Intersection.hit intersections with
            | some h => decide (h.t < distance)
            | none => false
        | none => false)

mutual

/-- `World::color_at`: find the hit and shade it, black on a miss. -/
def World.colorAt (sq : α → α) (w : World α) (ray : Ray α) (remaining : Nat) :
    Except String (RGB α) :=
  match w.intersectWorld ray with
  | some xs =>
      match Intersection.hit xs with
      | some i => World.shadeHit sq w (i.prepareComputations ray xs) remaining
      | none => .ok BLACK
  | none => .ok BLACK
termination_by 3 * remaining + 2

/-- `World::shade_hit`: direct lighting (with the shadow test at
`over_point`) plus the recursive reflected and refracted contributions,
Schlick-blended when the material is both reflective and transparent. -/
def World.shadeHit (sq : α → α) (w : World α) (comps : Computation α)
    (remaining : Nat) : Except String (RGB α) :=
  match World.isShadowed sq w comps.over_point with
  | .error e => .error e
  | .ok shadowed =>
      match w.light with
      | none => .error "World has no light!"
      | some light =>
          let surface := Material.lightning sq comps.object.material light
            comps.over_point comps.eyev comps.normalv shadowed
          match World.reflectedColor sq w comps remaining with
          | .error e => .error e
          | .ok reflected =>
              match World.refractedColor sq w comps remaining with
              | .error e => .error e
              | .ok refracted =>
                  let material := comps.object.material
                  if material.reflective > 0 ∧ material.transparency > 0 then
                    let reflectance := Computation.schlick sq comps
                    .ok (RGB.add (RGB.add surface (RGB.smul reflected reflectance))
                          (RGB.smul refracted (1 - reflectance)))
                  else .ok (RGB.add (RGB.add surface reflected) refracted)
termination_by 3 * remaining + 1

/-- `World::reflected_color` from `world.rs` (lines 138-147): black when the
material is not reflective (`float_eq(reflective, 0.0)`) **or**
`remaining == 0`; else recurse along the reflection ray from `over_point`
with `remaining - 1` and scale by `reflective`. -/
def World.reflectedColor (sq : α → α) (w : World α) (comps : Computation α)
    (remaining : Nat) : Except String (RGB α) :=
  if h : floatEq comps.object.material.reflective 0 = true ∨ remaining = 0 then
    .ok BLACK
  else
    match World.colorAt sq w ⟨comps.over_point, comps.reflectv⟩ (remaining - 1) with
    | .error e => .error e
    | .ok color => .ok (RGB.smul color comps.object.material.reflective)
termination_by 3 * remaining
decreasing_by
  push_neg at h
  omega

/-- `World::refracted_color` from `world.rs` (lines 150-170): black when the
material is opaque (`float_eq(transparency, 0.0)`) **or** `remaining == 0`;
black on total internal reflection; else recurse along the Snell-refracted
ray from `under_point` with `remaining - 1` and scale by `transparency`. -/
def World.refractedColor (sq : α → α) (w : World α) (comps : Computation α)
    (remaining : Nat) : Except String (RGB α) :=
  if h : floatEq comps.object.material.transparency 0 = true ∨ remaining = 0 then
    .ok BLACK
  else
    let nRatio := comps.n1 / comps.n2
    let cosI := Vector.dot comps.eyev comps.normalv
    let sin2t := nRatio ^ 2 * (1 - cosI ^ 2)
    if sin2t > 1 then .ok BLACK
    else
      let cosT := sq (1 - sin2t)
      let direction := Vector.sub
        (Vector.smul comps.normalv (nRatio * cosI - cosT))
        (Vector.smul comps.eyev nRatio)
      match World.colorAt sq w ⟨comps.under_point, direction⟩ (remaining - 1) with
      | .error e => .error e
      | .ok color => .ok (RGB.smul color comps.object.material.transparency)
termination_by 3 * remaining
decreasing_by
  push_neg at h
  omega

end

/-- IEEE `f64` division with the zero-divisor outcomes made explicit:
`none` models a non-finite result (`0.0 / 0.0` is NaN); otherwise the exact
quotient. -/
def fdiv (a b : α) : Option α := if b = 0 then none else some (a / b)

/-- `Vector::normalize` with the IEEE division outcome tracked: the source
divides each component by the magnitude with no zero guard, so a zero
magnitude (zero vector, since `sqrt` vanishes only at `0`) makes every
component `0.0 / 0.0` — NaN. -/
def Vector.normalizeF (sq : α → α) (v : Vector α) :
    Option α × Option α × Option α :=
  let mag := Vector.magnitudeW sq v
  (fdiv v.x mag, fdiv v.y mag, fdiv v.z mag)

/-- The refractive-index walk as the spec describes it (claim C3): fold the
container update over the prefix of `xs` strictly before the first
occurrence of the current intersection; `n1` is the refractive index of the
most recently entered shape at that point (`1.0` if none is entered), and
`n2` the same after updating the container for the current intersection. -/
def specRefractive (xs : List (Intersection α (Obj α)))
    (self : Intersection α (Obj α)) : α × α :=
  (topRefractive ((xs.takeWhile (fun i => !(ieq i self))).foldl
      (fun s i => containerUpdate s i.obj) []),
   topRefractive
     (match xs.dropWhile (fun i => !(ieq i self)) with
      | [] => (xs.takeWhile (fun i => !(ieq i self))).foldl
          (fun s i => containerUpdate s i.obj) []
      | cur :: _ => containerUpdate
          ((xs.takeWhile (fun i => !(ieq i self))).foldl
            (fun s i => containerUpdate s i.obj) []) cur.obj))

/-- The trait `Shape::normal_at` (shapes.rs lines 65-74, the `w = None`
branch) specialized to a sphere, taking the already-inverted transform:
local point via the inverse, the sphere's local normal (modelled from the
spec: unit sphere at origin, normal = point − origin; the current
`Sphere::local_normal_at` is missing from src — sphere.rs is a stale
snapshot), then back through the inverse transpose and normalized. -/
def sphereNormalAt (sq : α → α) (inv : Matrix α) (point : Point α) : Vector α :=
  let localPoint := inv.mulPoint point
  let localNormal := Point.subp localPoint ⟨0, 0, 0⟩
  Vector.normalizeW sq (inv.transpose.mulVector localNormal)

/-- Modelled from the spec: `Sphere::glass_sphere` (called by the crate's
tests but missing from the stale sphere.rs): a unit sphere with the default
(identity) transform — whose inverse is the identity — and a glass material
(transparency `1.0`, refractive index `1.5`; remaining fields are the
`Material::default()` values of material.rs). -/
def glassSphereObj (sq : α → α) : Obj α :=
  ⟨0, ⟨WHITE, 1/10, 9/10, 9/10, 200, 0, 1, 3/2, none⟩, sphereNormalAt sq IDENTITY⟩

/-- Glass sphere A of the crate's `find_n1_n2_intersection` test
(refractive index 1.5). -/
def glassA : Obj ℚ :=
  ⟨1, ⟨WHITE, 1/10, 9/10, 9/10, 200, 0, 1, 3/2, none⟩, fun _ => ⟨0, 0, 1⟩⟩

/-- Glass sphere B of the same test (refractive index 2.0). -/
def glassB : Obj ℚ :=
  ⟨2, ⟨WHITE, 1/10, 9/10, 9/10, 200, 0, 1, 2, none⟩, fun _ => ⟨0, 0, 1⟩⟩

/-- Glass sphere C of the same test (refractive index 2.5). -/
def glassC : Obj ℚ :=
  ⟨3, ⟨WHITE, 1/10, 9/10, 9/10, 200, 0, 1, 5/2, none⟩, fun _ => ⟨0, 0, 1⟩⟩

/-- The `t`-sorted intersections of the `find_n1_n2_intersection` test. -/
def n1n2Xs : List (Intersection ℚ (Obj ℚ)) :=
  [⟨2, glassA⟩, ⟨11/4, glassB⟩, ⟨13/4, glassC⟩, ⟨19/4, glassB⟩,
   ⟨21/4, glassC⟩, ⟨6, glassA⟩]

/-- A concrete opaque shape for the shadow witness. -/
def shadowObj : Obj ℚ :=
  ⟨7, ⟨WHITE, 1/10, 9/10, 9/10, 200, 0, 0, 1, none⟩, fun _ => ⟨0, 0, 1⟩⟩

/-- A world with one light and one shape whose intersect reports `t = 5`. -/
def shadowWorld : World ℚ :=
  ⟨[⟨shadowObj, fun _ => some [⟨5, shadowObj⟩]⟩], some ⟨⟨0, 0, 10⟩, WHITE⟩⟩

lemma epsilon_pos : (0 : α) < (EPSILON : α) := by
  norm_num [EPSILON]

lemma floatCmp_ne_gt {a b : α} (h : floatCmp a b ≠ Ordering.gt) :
    a < b + (EPSILON : α) := by
  by_cases he : floatEq a b
  · have : |a - b| < (EPSILON : α) := by
      simpa [floatEq] using he
    have := abs_lt.mp this
    linarith [this.2]
  · by_cases hlt : a < b
    · have := epsilon_pos (α := α)
      linarith
    · exfalso
      apply h
      simp [floatCmp, he, hlt]

lemma floatCmp_gt_lt {a b : α} (h : floatCmp a b = Ordering.gt) : b < a := by
  by_cases he : floatEq a b
  · simp [floatCmp, he] at h
  · by_cases hlt : a < b
    · simp [floatCmp, he, hlt] at h
    · rcases lt_trichotomy a b with h1 | h1 | h1
      · exact absurd h1 hlt
      · subst h1
        refine absurd ?_ he
        simp only [floatEq, sub_self, abs_zero, decide_eq_true_eq]
        exact epsilon_pos (α := α)
      · exact h1

lemma hit_fold_spec {σ : Type} (l : List (Intersection α σ))
    (acc : Intersection α σ) :
    (l.foldl hitStep acc = acc ∨ l.foldl hitStep acc ∈ l) ∧
    (l.foldl hitStep acc).t ≤ acc.t ∧
    (∀ i ∈ l, (l.foldl hitStep acc).t < i.t + (EPSILON : α)) := by
  induction l generalizing acc with
  | nil => simp
  | cons i rest ih =>
      by_cases hc : floatCmp acc.t i.t = Ordering.gt
      · have hstep : hitStep acc i = i := by
          simp [hitStep, hc]
        obtain ⟨hmem, hle, hmin⟩ := ih i
        have hlt : i.t < acc.t := floatCmp_gt_lt hc
        refine ⟨?_, ?_, ?_⟩
        · simp only [List.foldl_cons, hstep]
          rcases hmem with h | h
          · exact Or.inr (by simp [h])
          · exact Or.inr (by simp [h])
        · simp only [List.foldl_cons, hstep]
          exact le_of_lt (lt_of_le_of_lt hle hlt)
        · intro j hj
          simp only [List.foldl_cons, hstep]
          rcases List.mem_cons.mp hj with h | h
          · have := epsilon_pos (α := α)
            subst h
            linarith
          · exact hmin j h
      · have hstep : hitStep acc i = acc := by
          simp [hitStep, hc]
        obtain ⟨hmem, hle, hmin⟩ := ih acc
        have hbound : acc.t < i.t + (EPSILON : α) := floatCmp_ne_gt hc
        refine ⟨?_, ?_, ?_⟩
        · simp only [List.foldl_cons, hstep]
          rcases hmem with h | h
          · exact Or.inl h
          · exact Or.inr (by simp [h])
        · simp only [List.foldl_cons, hstep]
          exact hle
        · intro j hj
          simp only [List.foldl_cons, hstep]
          rcases List.mem_cons.mp hj with h | h
          · subst h
            exact lt_of_le_of_lt hle hbound
          · exact hmin j h

/-- C1 (amended): `Intersection::hit` never selects an intersection with
`t < 0`, returns `none` exactly when no intersection has non-negative `t`,
and returns an intersection whose non-negative `t` is minimal up to the
comparison tolerance `EPSILON`: no other non-negative intersection's `t` is
smaller by `EPSILON` or more.  (Because `min` compares with the epsilon-aware
`float_cmp`, the result need not have the literally smallest non-negative
`t`; see the counterexample.) -/
theorem C1_hit_epsilon_minimal {σ : Type} (xs : List (Intersection α σ)) :
    (Intersection.hit xs = none ↔ ∀ i ∈ xs, i.t < 0) ∧
    ∀ h, Intersection.hit xs = some h →
      h ∈ xs ∧ 0 ≤ h.t ∧ ∀ i ∈ xs, 0 ≤ i.t → h.t < i.t + (EPSILON : α) := by
  constructor
  · unfold Intersection.hit
    cases hf : xs.filter (fun i => decide (0 ≤ i.t)) with
    | nil =>
        simp only [List.filter_eq_nil_iff, decide_eq_true_eq] at hf
        simp only [true_iff]
        intro i hi
        exact lt_of_not_le (hf i hi)
    | cons y ys =>
        simp only [reduceCtorEq, false_iff, not_forall]
        have hy : y ∈ xs.filter (fun i => decide (0 ≤ i.t)) := by
          simp [hf]
        have := List.mem_filter.mp hy
        refine ⟨y, this.1, ?_⟩
        have h0 : 0 ≤ y.t := by simpa using this.2
        exact not_lt.mpr h0
  · intro h hh
    unfold Intersection.hit at hh
    cases hf : xs.filter (fun i => decide (0 ≤ i.t)) with
    | nil => simp [hf] at hh
    | cons y ys =>
        rw [hf] at hh
        simp only [Option.some.injEq] at hh
        obtain ⟨hmem, hle, hmin⟩ := hit_fold_spec ys y
        rw [hh] at hmem hle hmin
        have hfmem : h ∈ xs.filter (fun i => decide (0 ≤ i.t)) := by
          rw [hf]
          rcases hmem with h1 | h1
          · simp [h1]
          · simp [h1]
        have hx := List.mem_filter.mp hfmem
        refine ⟨hx.1, by simpa using hx.2, ?_⟩
        intro i hi hit0
        have hif : i ∈ xs.filter (fun j => decide (0 ≤ j.t)) :=
          List.mem_filter.mpr ⟨hi, by simpa using hit0⟩
        rw [hf] at hif
        rcases List.mem_cons.mp hif with h1 | h1
        · subst h1
          have := epsilon_pos (α := α)
          linarith
        · exact hmin i h1

/-- C1 witness: concrete application of the amended hit theorem. -/
theorem C1_hit_epsilon_minimal_witness :
    (⟨2, 0⟩ : Intersection ℚ ℕ) ∈ ([⟨5, 0⟩, ⟨-3, 0⟩, ⟨2, 0⟩] : List (Intersection ℚ ℕ)) ∧
    (0 : ℚ) ≤ (⟨2, 0⟩ : Intersection ℚ ℕ).t ∧
    ∀ i ∈ ([⟨5, 0⟩, ⟨-3, 0⟩, ⟨2, 0⟩] : List (Intersection ℚ ℕ)),
      0 ≤ i.t → (⟨2, 0⟩ : Intersection ℚ ℕ).t < i.t + (EPSILON : ℚ) :=
  (C1_hit_epsilon_minimal [⟨5, 0⟩, ⟨-3, 0⟩, ⟨2, 0⟩]).2 ⟨2, 0⟩ (by
    norm_num [Intersection.hit, hitStep, floatCmp, floatEq, EPSILON, List.filter, List.foldl])

/-- C1 counterexample: with intersections at `t = 1/20000` and `t = 0` (both
non-negative, within `EPSILON` of each other), `hit` returns the first one,
whose `t` is **not** the smallest non-negative `t` in the list — refuting
the claim that `hit` always returns the intersection with the smallest
non-negative `t`. -/
theorem C1_hit_counterexample :
    Intersection.hit ([⟨1/20000, 0⟩, ⟨0, 0⟩] : List (Intersection ℚ ℕ)) =
      some ⟨1/20000, 0⟩ ∧
    (⟨0, 0⟩ : Intersection ℚ ℕ) ∈ ([⟨1/20000, 0⟩, ⟨0, 0⟩] : List (Intersection ℚ ℕ)) ∧
    (0 : ℚ) ≤ 0 ∧ (0 : ℚ) < 1/20000 := by
  refine ⟨?_, by simp, by norm_num, by norm_num⟩
  norm_num [Intersection.hit, hitStep, floatCmp, floatEq, EPSILON, List.filter, List.foldl]
  exact ⟨by rw [abs_of_pos] <;> norm_num, by decide⟩

lemma range4 : List.range 4 = [0, 1, 2, 3] := rfl

lemma Matrix.mul_mget (a b : Matrix α) (r c : Nat) (hr : r < 4) (hc : c < 4) :
    (a.mul b).mget r c =
      a.mget r 0 * b.mget 0 c + a.mget r 1 * b.mget 1 c +
      a.mget r 2 * b.mget 2 c + a.mget r 3 * b.mget 3 c := by
  interval_cases r <;> interval_cases c <;> rfl

lemma Matrix.det_two (b : Matrix α) :
    b.determinant 2 = b.mget 0 0 * b.mget 1 1 - b.mget 0 1 * b.mget 1 0 := rfl

lemma Matrix.det_three (b : Matrix α) :
    b.determinant 3 =
      ((List.range 4).map (fun c => b.mget 0 c * Matrix.cofactor 2 b 0 c)).sum := rfl

lemma Matrix.det_four (b : Matrix α) :
    b.determinant 4 =
      ((List.range 4).map (fun c => b.mget 0 c * Matrix.cofactor 3 b 0 c)).sum := rfl

lemma Matrix.subsub_mget (m : Matrix α) (c d i j : Nat) (hc : c < 4) (hd : d < 4)
    (hi : i < 2) (hj : j < 2) :
    ((m.subMatrix 0 c).subMatrix 0 d).mget i j =
      m.mget (i + 2)
        (if (if j < d then j else j + 1) < c then (if j < d then j else j + 1)
         else (if j < d then j else j + 1) + 1) := by
  interval_cases c <;> interval_cases d <;> interval_cases i <;> interval_cases j <;> rfl

lemma det2_subsub_zero (m : Matrix α) (h0 : m.mget 3 0 = 0) (h1 : m.mget 3 1 = 0)
    (h2 : m.mget 3 2 = 0) (h3 : m.mget 3 3 = 0) (c d : Nat) (hc : c < 4) (hd : d < 4) :
    Matrix.determinant 2 ((m.subMatrix 0 c).subMatrix 0 d) = 0 := by
  interval_cases c <;> interval_cases d <;>
    (rw [Matrix.det_two,
        Matrix.subsub_mget m _ _ 0 0 (by norm_num) (by norm_num) (by norm_num) (by norm_num),
        Matrix.subsub_mget m _ _ 1 1 (by norm_num) (by norm_num) (by norm_num) (by norm_num),
        Matrix.subsub_mget m _ _ 0 1 (by norm_num) (by norm_num) (by norm_num) (by norm_num),
        Matrix.subsub_mget m _ _ 1 0 (by norm_num) (by norm_num) (by norm_num) (by norm_num)]
     norm_num [h0, h1, h2, h3])

lemma det3_sub_zero (m : Matrix α) (h0 : m.mget 3 0 = 0) (h1 : m.mget 3 1 = 0)
    (h2 : m.mget 3 2 = 0) (h3 : m.mget 3 3 = 0) (c : Nat) (hc : c < 4) :
    (m.subMatrix 0 c).determinant 3 = 0 := by
  rw [Matrix.det_three]
  simp only [range4, List.map_cons, List.map_nil, List.sum_cons, List.sum_nil,
    Matrix.cofactor, Matrix.minor]
  rw [det2_subsub_zero m h0 h1 h2 h3 c 0 hc (by norm_num),
      det2_subsub_zero m h0 h1 h2 h3 c 1 hc (by norm_num),
      det2_subsub_zero m h0 h1 h2 h3 c 2 hc (by norm_num),
      det2_subsub_zero m h0 h1 h2 h3 c 3 hc (by norm_num)]
  norm_num

lemma det_zero_row3 (m : Matrix α) (h0 : m.mget 3 0 = 0) (h1 : m.mget 3 1 = 0)
    (h2 : m.mget 3 2 = 0) (h3 : m.mget 3 3 = 0) : m.determinant 4 = 0 := by
  rw [Matrix.det_four]
  simp only [range4, List.map_cons, List.map_nil, List.sum_cons, List.sum_nil,
    Matrix.cofactor, Matrix.minor]
  rw [det3_sub_zero m h0 h1 h2 h3 0 (by norm_num),
      det3_sub_zero m h0 h1 h2 h3 1 (by norm_num),
      det3_sub_zero m h0 h1 h2 h3 2 (by norm_num),
      det3_sub_zero m h0 h1 h2 h3 3 (by norm_num)]
  norm_num

lemma inverse_of_det_zero (m : Matrix α) (h : m.determinant 4 = 0) :
    m.inverse 4 = .error "Matrix is not invertible!" := by
  simp [Matrix.inverse, Matrix.isInvertible, h]

lemma mulPoint_mul_affine (a b : Matrix α) (p : Point α)
    (h0 : b.mget 3 0 = 0) (h1 : b.mget 3 1 = 0) (h2 : b.mget 3 2 = 0)
    (h3 : b.mget 3 3 = 1) :
    (a.mul b).mulPoint p = a.mulPoint (b.mulPoint p) := by
  simp only [Matrix.mulPoint]
  rw [Matrix.mul_mget a b 0 0 (by norm_num) (by norm_num),
      Matrix.mul_mget a b 0 1 (by norm_num) (by norm_num),
      Matrix.mul_mget a b 0 2 (by norm_num) (by norm_num),
      Matrix.mul_mget a b 0 3 (by norm_num) (by norm_num),
      Matrix.mul_mget a b 1 0 (by norm_num) (by norm_num),
      Matrix.mul_mget a b 1 1 (by norm_num) (by norm_num),
      Matrix.mul_mget a b 1 2 (by norm_num) (by norm_num),
      Matrix.mul_mget a b 1 3 (by norm_num) (by norm_num),
      Matrix.mul_mget a b 2 0 (by norm_num) (by norm_num),
      Matrix.mul_mget a b 2 1 (by norm_num) (by norm_num),
      Matrix.mul_mget a b 2 2 (by norm_num) (by norm_num),
      Matrix.mul_mget a b 2 3 (by norm_num) (by norm_num)]
  simp only [Point.mk.injEq]
  refine ⟨?_, ?_, ?_⟩ <;> (rw [h0, h1, h2, h3]; ring)

lemma apply_eq_mul (cosF sinF : α → α) (t : Transformation α) (s : Step α) :
    Step.apply cosF sinF t s = Transformation.tmul (Step.matrix cosF sinF s) t := by
  cases s <;> rfl

lemma init_tmul (a b : Transformation α) :
    (Transformation.tmul a b).init = Matrix.mul a.init b.init := rfl

lemma affineRow3_new : affineRow3 (Transformation.new (α := α)) :=
  ⟨rfl, rfl, rfl, rfl⟩

lemma stepMatrix_row3_val (cosF sinF : α → α) (s : Step α) (k : Nat) (hk : k < 4) :
    (Step.matrix cosF sinF s).init.mget 3 k =
      if Step.isShear s = true then 0 else if k = 3 then 1 else 0 := by
  cases s <;> interval_cases k <;> rfl

lemma affineRow3_apply (cosF sinF : α → α) (t : Transformation α) (s : Step α)
    (hs : Step.isShear s = false) (ht : affineRow3 t) :
    affineRow3 (Step.apply cosF sinF t s) := by
  obtain ⟨ht0, ht1, ht2, ht3⟩ := ht
  refine ⟨?_, ?_, ?_, ?_⟩ <;>
    (rw [apply_eq_mul, init_tmul, Matrix.mul_mget _ _ 3 _ (by norm_num) (by norm_num),
        stepMatrix_row3_val cosF sinF s 0 (by norm_num),
        stepMatrix_row3_val cosF sinF s 1 (by norm_num),
        stepMatrix_row3_val cosF sinF s 2 (by norm_num),
        stepMatrix_row3_val cosF sinF s 3 (by norm_num)]
     simp [hs, ht0, ht1, ht2, ht3])

lemma row3Zero_apply (cosF sinF : α → α) (t : Transformation α) (s : Step α)
    (ht : row3Zero t) : row3Zero (Step.apply cosF sinF t s) := by
  obtain ⟨ht0, ht1, ht2, ht3⟩ := ht
  refine ⟨?_, ?_, ?_, ?_⟩ <;>
    (rw [apply_eq_mul, init_tmul, Matrix.mul_mget _ _ 3 _ (by norm_num) (by norm_num),
        stepMatrix_row3_val cosF sinF s 0 (by norm_num),
        stepMatrix_row3_val cosF sinF s 1 (by norm_num),
        stepMatrix_row3_val cosF sinF s 2 (by norm_num),
        stepMatrix_row3_val cosF sinF s 3 (by norm_num)]
     cases hb : Step.isShear s <;> simp [hb, ht0, ht1, ht2, ht3])

lemma row3Zero_shear (cosF sinF : α → α) (t : Transformation α)
    (xy xz yx yz zx zy : α) :
    row3Zero (Step.apply cosF sinF t (Step.shearS xy xz yx yz zx zy)) := by
  refine ⟨?_, ?_, ?_, ?_⟩ <;>
    (rw [apply_eq_mul, init_tmul, Matrix.mul_mget _ _ 3 _ (by norm_num) (by norm_num),
        stepMatrix_row3_val cosF sinF _ 0 (by norm_num),
        stepMatrix_row3_val cosF sinF _ 1 (by norm_num),
        stepMatrix_row3_val cosF sinF _ 2 (by norm_num),
        stepMatrix_row3_val cosF sinF _ 3 (by norm_num)]
     simp [Step.isShear])

lemma row3Zero_chain (cosF sinF : α → α) (t : Transformation α)
    (steps : List (Step α)) (ht : row3Zero t) :
    row3Zero (chainApply cosF sinF t steps) := by
  induction steps generalizing t with
  | nil => exact ht
  | cons s rest ih =>
      simpa [chainApply] using ih (Step.apply cosF sinF t s) (row3Zero_apply _ _ _ _ ht)

lemma row3Zero_chain_shear (cosF sinF : α → α) (start : Transformation α)
    (steps : List (Step α)) (h : ∃ s ∈ steps, Step.isShear s = true) :
    row3Zero (chainApply cosF sinF start steps) := by
  induction steps generalizing start with
  | nil => simp at h
  | cons s rest ih =>
      obtain ⟨x, hx, hxs⟩ := h
      rcases List.mem_cons.mp hx with h1 | h1
      · subst h1
        cases x with
        | shearS xy xz yx yz zx zy =>
            have : row3Zero (Step.apply cosF sinF start (Step.shearS xy xz yx yz zx zy)) :=
              row3Zero_shear cosF sinF start xy xz yx yz zx zy
            simpa [chainApply] using
              row3Zero_chain cosF sinF _ rest this
        | translationS x y z => simp [Step.isShear] at hxs
        | scalingS x y z => simp [Step.isShear] at hxs
        | rotXS rad => simp [Step.isShear] at hxs
        | rotYS rad => simp [Step.isShear] at hxs
        | rotZS rad => simp [Step.isShear] at hxs
      · simpa [chainApply] using ih (Step.apply cosF sinF start s) ⟨x, h1, hxs⟩

lemma mulPoint_new (p : Point α) :
    Matrix.mulPoint (Transformation.new (α := α)).init p = p := by
  cases p with
  | mk x y z =>
      simp [Transformation.new, Transformation.init, Matrix.mulPoint, Matrix.mget]

lemma chain_point (cosF sinF : α → α) (steps : List (Step α)) (t : Transformation α)
    (p : Point α) (hsteps : ∀ s ∈ steps, Step.isShear s = false) (ht : affineRow3 t) :
    Matrix.mulPoint (chainApply cosF sinF t steps).init p =
      steps.foldl (fun q s => Matrix.mulPoint (Step.matrix cosF sinF s).init q)
        (Matrix.mulPoint t.init p) := by
  induction steps generalizing t p with
  | nil => rfl
  | cons s rest ih =>
      have hs := hsteps s (List.mem_cons_self s rest)
      have hrest : ∀ x ∈ rest, Step.isShear x = false := fun x hx =>
        hsteps x (List.mem_cons_of_mem s hx)
      have ht' : affineRow3 (Step.apply cosF sinF t s) :=
        affineRow3_apply cosF sinF t s hs ht
      have hb : Matrix.mulPoint (Step.apply cosF sinF t s).init p =
          Matrix.mulPoint (Step.matrix cosF sinF s).init (Matrix.mulPoint t.init p) := by
        rw [apply_eq_mul, init_tmul]
        exact mulPoint_mul_affine _ _ p ht.1 ht.2.1 ht.2.2.1 ht.2.2.2
      simp only [chainApply, List.foldl_cons]
      rw [show (List.foldl (Step.apply cosF sinF) (Step.apply cosF sinF t s) rest) =
            chainApply cosF sinF (Step.apply cosF sinF t s) rest from rfl,
          ih (Step.apply cosF sinF t s) p hrest ht', hb]

/-- C6 (amended): every builder call (`translation`, `scaling`,
`rotate_x/y/z`, `shearing`) composes as `new_transform * accumulated`; for
chains made only of translation/scaling/rotation steps (whose matrices keep
the affine homogeneous row `(0,0,0,1)`) reading the chain left to right
gives the order in which the operations are applied to a point.  A
`shearing` step, whose basic matrix has an all-zero fourth row, breaks the
left-to-right point-application reading (see the counterexample). -/
theorem C6_builder_composition (cosF sinF : α → α) :
    (∀ (t : Transformation α) (x y z : α),
        t.translation x y z =
          Transformation.tmul ⟨[[1,0,0,x],[0,1,0,y],[0,0,1,z],[0,0,0,1]]⟩ t) ∧
    (∀ (t : Transformation α) (x y z : α),
        t.scaling x y z =
          Transformation.tmul ⟨[[x,0,0,0],[0,y,0,0],[0,0,z,0],[0,0,0,1]]⟩ t) ∧
    (∀ (t : Transformation α) (rad : α),
        Transformation.rotateX cosF sinF t rad =
          Transformation.tmul
            ⟨[[1,0,0,0],[0,cosF rad,-(sinF rad),0],[0,sinF rad,cosF rad,0],[0,0,0,1]]⟩ t) ∧
    (∀ (t : Transformation α) (rad : α),
        Transformation.rotateY cosF sinF t rad =
          Transformation.tmul
            ⟨[[cosF rad,0,sinF rad,0],[0,1,0,0],[-(sinF rad),0,cosF rad,0],[0,0,0,1]]⟩ t) ∧
    (∀ (t : Transformation α) (rad : α),
        Transformation.rotateZ cosF sinF t rad =
          Transformation.tmul
            ⟨[[cosF rad,-(sinF rad),0,0],[sinF rad,cosF rad,0,0],[0,0,1,0],[0,0,0,1]]⟩ t) ∧
    (∀ (t : Transformation α) (xy xz yx yz zx zy : α),
        t.shearing xy xz yx yz zx zy =
          Transformation.tmul ⟨[[1,xy,xz,0],[yx,1,yz,0],[zx,zy,1,0],[0,0,0,0]]⟩ t) ∧
    (∀ (steps : List (Step α)) (p : Point α),
        (∀ s ∈ steps, Step.isShear s = false) →
        Matrix.mulPoint (chainApply cosF sinF Transformation.new steps).init p =
          steps.foldl (fun q s => Matrix.mulPoint (Step.matrix cosF sinF s).init q) p) := by
  refine ⟨fun t x y z => rfl, fun t x y z => rfl, fun t rad => rfl, fun t rad => rfl,
    fun t rad => rfl, fun t xy xz yx yz zx zy => rfl, ?_⟩
  intro steps p hsteps
  rw [chain_point cosF sinF steps Transformation.new p hsteps affineRow3_new,
      mulPoint_new]

/-- C6 witness: a concrete scaling-then-translation chain applied to a
point. -/
theorem C6_builder_composition_witness :
    Matrix.mulPoint (chainApply (fun _ => (0:ℚ)) (fun _ => 0) Transformation.new
        [Step.scalingS 2 2 2, Step.translationS 1 0 0]).init ⟨1, 1, 1⟩ =
      [Step.scalingS (2:ℚ) 2 2, Step.translationS 1 0 0].foldl
        (fun q s => Matrix.mulPoint (Step.matrix (fun _ => (0:ℚ)) (fun _ => 0) s).init q)
        ⟨1, 1, 1⟩ :=
  (C6_builder_composition _ _).2.2.2.2.2.2 _ _ (by
    intro s hs
    rcases List.mem_cons.mp hs with h | h
    · subst h; rfl
    · rcases List.mem_cons.mp h with h1 | h1
      · subst h1; rfl
      · simp at h1)

/-- C6 counterexample: in the chain `new().shearing(0,..).translation(1,0,0)`
the left-to-right reading says "first shear, then translate", but the
composed matrix applied to the origin gives `(0,0,0)` while sequentially
applying the two basic matrices gives `(1,0,0)` — the shearing step's
all-zero homogeneous row erases the later translation, refuting the
left-to-right application-order reading for chains containing `shearing`. -/
theorem C6_builder_composition_counterexample :
    Matrix.mulPoint (chainApply (fun _ => (0:ℚ)) (fun _ => 0) Transformation.new
        [Step.shearS 0 0 0 0 0 0, Step.translationS 1 0 0]).init ⟨0, 0, 0⟩ = ⟨0, 0, 0⟩ ∧
    [Step.shearS (0:ℚ) 0 0 0 0 0, Step.translationS 1 0 0].foldl
        (fun q s => Matrix.mulPoint (Step.matrix (fun _ => (0:ℚ)) (fun _ => 0) s).init q)
        ⟨0, 0, 0⟩ = ⟨1, 0, 0⟩ ∧
    (⟨0, 0, 0⟩ : Point ℚ) ≠ ⟨1, 0, 0⟩ := by
  refine ⟨?_, ?_, by simp⟩
  · norm_num [chainApply, Step.apply, Step.matrix, Transformation.shearing,
      Transformation.translation, Transformation.tmul, Transformation.init,
      Transformation.new, Matrix.mul, Matrix.mget, Matrix.mulPoint, range4]
  · norm_num [Step.matrix, Transformation.init, Matrix.mget, Matrix.mulPoint]

/-- C9: the `shearing` builder produces a matrix whose fourth (homogeneous)
row is all zeros; its determinant is therefore zero, `Matrix::inverse`
reports it non-invertible, and for every builder chain containing a
`shearing` step the accumulated transform is non-invertible, so the inverse
expected by the default `Shape::intersect` does not exist (the call
fails). -/
theorem C9_shearing_not_invertible (cosF sinF : α → α) :
    (∀ (t : Transformation α) (xy xz yx yz zx zy : α) (c : Nat), c < 4 →
        (t.shearing xy xz yx yz zx zy).init.mget 3 c = 0) ∧
    (∀ (t : Transformation α) (xy xz yx yz zx zy : α),
        (t.shearing xy xz yx yz zx zy).init.determinant 4 = 0) ∧
    (∀ (t : Transformation α) (xy xz yx yz zx zy : α),
        (t.shearing xy xz yx yz zx zy).init.inverse 4 =
          .error "Matrix is not invertible!") ∧
    (∀ (start : Transformation α) (steps : List (Step α)),
        (∃ s ∈ steps, Step.isShear s = true) →
        (chainApply cosF sinF start steps).init.determinant 4 = 0 ∧
        (chainApply cosF sinF start steps).init.inverse 4 =
          .error "Matrix is not invertible!" ∧
        ∀ (li : Ray α → Option (List (Intersection α Nat))) (ray : Ray α),
          ShapeD.intersect ⟨chainApply cosF sinF start steps, li⟩ ray =
            .error "The transformation matrix should invertible!") := by
  have hrow : ∀ (t : Transformation α) (xy xz yx yz zx zy : α),
      row3Zero (t.shearing xy xz yx yz zx zy) := by
    intro t xy xz yx yz zx zy
    exact row3Zero_shear cosF sinF t xy xz yx yz zx zy
  have hdet : ∀ (t : Transformation α) (xy xz yx yz zx zy : α),
      (t.shearing xy xz yx yz zx zy).init.determinant 4 = 0 := by
    intro t xy xz yx yz zx zy
    obtain ⟨a0, a1, a2, a3⟩ := hrow t xy xz yx yz zx zy
    exact det_zero_row3 _ a0 a1 a2 a3
  refine ⟨?_, hdet, ?_, ?_⟩
  · intro t xy xz yx yz zx zy c hc
    obtain ⟨a0, a1, a2, a3⟩ := hrow t xy xz yx yz zx zy
    interval_cases c
    · exact a0
    · exact a1
    · exact a2
    · exact a3
  · intro t xy xz yx yz zx zy
    exact inverse_of_det_zero _ (hdet t xy xz yx yz zx zy)
  · intro start steps h
    obtain ⟨a0, a1, a2, a3⟩ := row3Zero_chain_shear cosF sinF start steps h
    have hd : (chainApply cosF sinF start steps).init.determinant 4 = 0 :=
      det_zero_row3 _ a0 a1 a2 a3
    refine ⟨hd, inverse_of_det_zero _ hd, ?_⟩
    intro li ray
    simp [ShapeD.intersect, inverse_of_det_zero _ hd]

/-- C9 witness: the one-step shearing chain on the identity. -/
theorem C9_shearing_not_invertible_witness :
    (chainApply (fun _ => (0:ℚ)) (fun _ => 0) Transformation.new
        [Step.shearS 0 0 0 0 0 0]).init.determinant 4 = 0 ∧
    ShapeD.intersect
        ⟨chainApply (fun _ => (0:ℚ)) (fun _ => 0) Transformation.new
          [Step.shearS 0 0 0 0 0 0],
         fun _ => (none : Option (List (Intersection ℚ Nat)))⟩
        ⟨⟨0, 0, 0⟩, ⟨0, 0, 1⟩⟩ =
      .error "The transformation matrix should invertible!" := by
  have h := (C9_shearing_not_invertible (fun _ => (0:ℚ)) (fun _ => 0)).2.2.2
    Transformation.new [Step.shearS 0 0 0 0 0 0]
    ⟨Step.shearS 0 0 0 0 0 0, by simp, rfl⟩
  exact ⟨h.1, h.2.2 _ _⟩

/-- C2: the trait-default `Shape::intersect` (shapes.rs) fails fast on a
non-invertible transform, but `Sphere::intersect` (shapes/sphere.rs)
silently returns `None` — an ordinary no-intersection result — instead of
aborting, contradicting the fail-fast requirement for spheres. -/
theorem C2_sphere_intersect_no_abort :
    (∀ (sq : α → α) (s : SphereS α) (ray : Ray α),
        s.transform.init.determinant 4 = 0 →
        SphereS.intersect sq s ray = none) ∧
    (∀ (σ : Type) (d : ShapeD α σ) (ray : Ray α),
        d.transform.init.determinant 4 = 0 →
        d.intersect ray = .error "The transformation matrix should invertible!") := by
  constructor
  · intro sq s ray h
    unfold SphereS.intersect
    rw [inverse_of_det_zero _ h]
  · intro σ d ray h
    unfold ShapeD.intersect
    rw [inverse_of_det_zero _ h]

/-- C2 witness: a sphere carrying the (non-invertible) all-parameters-zero
shearing transform and the ray from `(0,0,-5)` toward `+z`: its `intersect`
returns `None`, while the trait default aborts. -/
theorem C2_sphere_intersect_no_abort_witness :
    SphereS.intersect (fun _ => (0 : ℚ))
        ⟨Transformation.new.shearing 0 0 0 0 0 0⟩ ⟨⟨0, 0, -5⟩, ⟨0, 0, 1⟩⟩ = none ∧
    ShapeD.intersect
        (⟨Transformation.new.shearing 0 0 0 0 0 0,
          fun _ => (none : Option (List (Intersection ℚ Nat)))⟩ : ShapeD ℚ Nat)
        ⟨⟨0, 0, -5⟩, ⟨0, 0, 1⟩⟩ =
      .error "The transformation matrix should invertible!" := by
  have hz : row3Zero (Transformation.new.shearing (0 : ℚ) 0 0 0 0 0) :=
    row3Zero_shear (fun _ => 0) (fun _ => 0) Transformation.new 0 0 0 0 0 0
  obtain ⟨a0, a1, a2, a3⟩ := hz
  have hd := det_zero_row3 _ a0 a1 a2 a3
  exact ⟨C2_sphere_intersect_no_abort.1 _ _ _ hd,
    C2_sphere_intersect_no_abort.2 _ _ _ hd⟩

lemma rustTrunc_intCast [FloorRing α] (k : ℤ) : rustTrunc ((k : ℤ) : α) = k := by
  unfold rustTrunc
  split <;> simp

lemma rustRem_two_even [FloorRing α] (n : ℤ) (h : Even n) : rustRem ((n : ℤ) : α) 2 = 0 := by
  obtain ⟨k, rfl⟩ := h
  unfold rustRem
  rw [show ((k + k : ℤ) : α) / 2 = ((k : ℤ) : α) by push_cast; ring,
    rustTrunc_intCast]
  push_cast
  ring

lemma rustRem_two_odd [FloorRing α] (n : ℤ) (h : ¬ Even n) : |rustRem ((n : ℤ) : α) 2| = 1 := by
  obtain ⟨k, rfl⟩ := Int.not_even_iff_odd.mp h
  unfold rustRem
  rw [show ((2 * k + 1 : ℤ) : α) / 2 = (1 / 2 : α) + (k : ℤ) by push_cast; ring]
  unfold rustTrunc
  by_cases hneg : (1 / 2 : α) + (k : ℤ) < 0
  · rw [if_pos hneg, Int.ceil_add_int,
      show ⌈(1 / 2 : α)⌉ = 1 by
        rw [Int.ceil_eq_iff] <;> norm_num]
    push_cast
    rw [show (2 * (k : α) + 1 - 2 * (1 + (k : α))) = -1 by ring]
    norm_num
  · rw [if_neg hneg, Int.floor_add_int,
      show ⌊(1 / 2 : α)⌋ = 0 by
        rw [Int.floor_eq_iff] <;> norm_num]
    push_cast
    rw [show (2 * (k : α) + 1 - 2 * (0 + (k : α))) = 1 by ring]
    norm_num

lemma tmod_two_eq_zero_iff (z : ℤ) : Int.tmod z 2 = 0 ↔ Even z := by
  constructor
  · intro h
    have hz := Int.tdiv_add_tmod z 2
    rw [h, add_zero] at hz
    exact ⟨Int.tdiv z 2, by omega⟩
  · rintro ⟨k, rfl⟩
    rw [show k + k = 2 * k by ring]
    have hz := Int.tdiv_add_tmod (2 * k) 2
    have hd : Int.tdiv (2 * k) 2 = k := Int.mul_tdiv_cancel_left k (by norm_num)
    omega

/-- C8 (amended): the Checkers pattern returns its first color exactly when
`floor(x) + floor(y) + floor(z)` is even, for every point including
negative coordinates (the `f64` remainder lands in `{-1, -0, 0, 1}` and the
`float_eq(_, 0.0)` test normalizes it).  The Stripes pattern returns its
first color exactly when `floor(x)` is even, provided `floor(x)` fits in an
`i32`; beyond that range the saturating `as i32` cast misclassifies (see
the counterexample). -/
theorem C8_pattern_parity [FloorRing α] :
    (∀ (a b : RGB α) (p : Point α),
        Checkers.patternAt a b p =
          if Even (⌊p.x⌋ + ⌊p.y⌋ + ⌊p.z⌋) then a else b) ∧
    (∀ (a b : RGB α) (p : Point α),
        -(2 ^ 31) ≤ ⌊p.x⌋ → ⌊p.x⌋ ≤ 2 ^ 31 - 1 →
        Stripes.stripeAt a b p = if Even ⌊p.x⌋ then a else b) := by
  constructor
  · intro a b p
    unfold Checkers.patternAt
    by_cases h : Even (⌊p.x⌋ + ⌊p.y⌋ + ⌊p.z⌋)
    · rw [if_pos h, if_pos]
      simp only [floatEq, rustRem_two_even _ h, sub_zero, abs_zero,
        decide_eq_true_eq]
      exact epsilon_pos (α := α)
    · rw [if_neg h, if_neg]
      simp only [floatEq, sub_zero, decide_eq_true_eq, not_lt]
      rw [rustRem_two_odd _ h]
      norm_num [EPSILON]
  · intro a b p hlo hhi
    unfold Stripes.stripeAt
    have hsat : satI32 ⌊p.x⌋ = ⌊p.x⌋ := by
      unfold satI32
      rw [min_eq_right hhi, max_eq_right hlo]
    rw [hsat]
    by_cases h : Even ⌊p.x⌋
    · rw [if_pos h, if_pos (tmod_two_eq_zero_iff _ |>.mpr h)]
    · rw [if_neg h, if_neg]
      intro hc
      exact h (tmod_two_eq_zero_iff _ |>.mp hc)

/-- C8 witness: the negative coordinate `x = -1/2` (floor `-1`, odd) gives
the second color for both patterns. -/
theorem C8_pattern_parity_witness :
    Checkers.patternAt (WHITE : RGB ℚ) BLACK ⟨-1/2, 0, 0⟩ = BLACK ∧
    Stripes.stripeAt (WHITE : RGB ℚ) BLACK ⟨-1/2, 0, 0⟩ = BLACK := by
  have hf : ⌊(-1/2 : ℚ)⌋ = -1 := by
    rw [Int.floor_eq_iff] <;> norm_num
  constructor
  · rw [(C8_pattern_parity (α := ℚ)).1 WHITE BLACK ⟨-1/2, 0, 0⟩]
    norm_num [hf]
  · rw [(C8_pattern_parity (α := ℚ)).2 WHITE BLACK ⟨-1/2, 0, 0⟩
        (by rw [hf]; norm_num) (by rw [hf]; norm_num)]
    norm_num [hf]

/-- C8 counterexample: at `x = -2^31 - 1` (an exactly representable `f64`
with odd floor) `Stripes::stripe_at` returns the **first** color: the
saturating `as i32` cast collapses the floor to `-2^31`, which is even —
refuting the claim that the first color is returned exactly when `floor(x)`
is even for every point. -/
theorem C8_stripes_counterexample :
    Stripes.stripeAt (WHITE : RGB ℚ) BLACK ⟨-(2 ^ 31) - 1, 0, 0⟩ = WHITE ∧
    ¬ Even ⌊(-(2 ^ 31) - 1 : ℚ)⌋ := by
  have hf : ⌊(-(2 ^ 31) - 1 : ℚ)⌋ = -(2 ^ 31) - 1 := by
    rw [show (-(2 ^ 31) - 1 : ℚ) = ((-(2 ^ 31) - 1 : ℤ) : ℚ) by push_cast; ring]
    exact Int.floor_intCast _
  constructor
  · unfold Stripes.stripeAt
    rw [hf, show satI32 (-(2 ^ 31) - 1) = -(2 ^ 31) by unfold satI32; decide,
      if_pos (by decide)]
  · rw [hf]
    decide

/-- C4: `reflected_color` and `refracted_color` called with zero remaining
bounces return black immediately, for every world, computation record,
material and square-root routine. -/
theorem C4_zero_bounces_black :
    ∀ (sq : α → α) (w : World α) (comps : Computation α),
      World.reflectedColor sq w comps 0 = .ok BLACK ∧
      World.refractedColor sq w comps 0 = .ok BLACK := by
  intro sq w comps
  constructor
  · rw [World.reflectedColor]
    simp
  · rw [World.refractedColor]
    simp

/-- C5: with a light configured, `is_shadowed(p)` returns `true` exactly
when the ray cast from `p` toward the light has a hit whose `t` is strictly
below the distance to the light; a hit at or beyond that distance does not
shadow `p`. -/
theorem C5_is_shadowed_iff :
    ∀ (sq : α → α) (w : World α) (light : PointLight α) (p : Point α),
      w.light = some light →
      (World.isShadowed sq w p = .ok true ↔
        ∃ xs hI,
          w.intersectWorld
              ⟨p, Vector.normalizeW sq (Point.subp light.position p)⟩ = some xs ∧
          Intersection.hit xs = some hI ∧
          hI.t < Vector.magnitudeW sq (Point.subp light.position p)) := by
  intro sq w light p hl
  unfold World.isShadowed
  rw [hl]
  simp only [Except.ok.injEq]
  cases hx : w.intersectWorld ⟨p, Vector.normalizeW sq (Point.subp light.position p)⟩ with
  | none =>
      simp only [hx]
      constructor
      · intro h
        simp at h
      · rintro ⟨xs, hI, hxs, _⟩
        simp at hxs
  | some xs =>
      simp only [hx]
      cases hh : Intersection.hit xs with
      | none =>
          simp only [hh]
          constructor
          · intro h
            simp at h
          · rintro ⟨ys, hI, hys, hhy, _⟩
            rw [Option.some.injEq] at hys
            subst hys
            rw [hh] at hhy
            simp at hhy
      | some hit0 =>
          simp only [hh, decide_eq_true_eq]
          constructor
          · intro h
            exact ⟨xs, hit0, rfl, hh, h⟩
          · rintro ⟨ys, hI, hys, hhy, hlt⟩
            rw [Option.some.injEq] at hys
            subst hys
            rw [hh, Option.some.injEq] at hhy
            subst hhy
            exact hlt

lemma n1n2Loop_eq_spec (self : Intersection α (Obj α)) :
    ∀ (xs : List (Intersection α (Obj α))) (st : List (Obj α)),
      (∃ i ∈ xs, ieq i self = true) →
      n1n2Loop self xs st =
        (topRefractive ((xs.takeWhile (fun i => !(ieq i self))).foldl
            (fun s i => containerUpdate s i.obj) st),
         topRefractive
           (match xs.dropWhile (fun i => !(ieq i self)) with
            | [] => (xs.takeWhile (fun i => !(ieq i self))).foldl
                (fun s i => containerUpdate s i.obj) st
            | cur :: _ => containerUpdate
                ((xs.takeWhile (fun i => !(ieq i self))).foldl
                  (fun s i => containerUpdate s i.obj) st) cur.obj)) := by
  intro xs
  induction xs with
  | nil =>
      intro st h
      simp at h
  | cons i rest ih =>
      intro st h
      by_cases hi : ieq i self = true
      · simp [n1n2Loop, hi, List.takeWhile_cons, List.dropWhile_cons]
      · have hmem : ∃ j ∈ rest, ieq j self = true := by
          obtain ⟨j, hj, hjs⟩ := h
          rcases List.mem_cons.mp hj with h1 | h1
          · subst h1
            exact absurd hjs hi
          · exact ⟨j, h1, hjs⟩
        have hib : ieq i self = false := by
          simp [hi]
        simp only [n1n2Loop, hib, Bool.false_eq_true, if_false]
        rw [ih (containerUpdate st i.obj) hmem]
        simp [List.takeWhile_cons, List.dropWhile_cons, hib]

/-- C3: `prepare_computations` determines `n1`/`n2` exactly as the spec's
containment-walk describes: for every `t`-ascending list containing the
current intersection, `n1` is the refractive index of the most recently
entered shape before processing the current intersection (1.0 if none) and
`n2` the same after updating the container for it; shapes are added on
first encounter and removed by id-membership on the next. -/
theorem C3_refractive_walk :
    ∀ (r : Ray α) (xs : List (Intersection α (Obj α)))
      (self : Intersection α (Obj α)),
      List.Chain' (fun a b => a.t ≤ b.t) xs →
      (∃ i ∈ xs, ieq i self = true) →
      ((self.prepareComputations r xs).n1, (self.prepareComputations r xs).n2) =
        specRefractive xs self := by
  intro r xs self _ hmem
  have h := n1n2Loop_eq_spec self xs [] hmem
  show ((n1n2Loop self xs []).1, (n1n2Loop self xs []).2) = specRefractive xs self
  rw [h]
  rfl

/-- C10: `Vector::normalize` performs an unguarded componentwise division
by the magnitude: on the zero vector every component is `0.0/0.0` (NaN);
for a nonzero vector with a genuine square root of its squared norm it is
the exact componentwise quotient; and the vector `is_shadowed` normalizes —
from the query point to the light — is exactly the zero vector when the
point coincides with the light's position. -/
theorem C10_normalize_unguarded :
    (∀ sq : α → α, sq 0 = 0 →
        Vector.normalizeF sq (⟨0, 0, 0⟩ : Vector α) = (none, none, none)) ∧
    (∀ (sq : α → α) (v : Vector α),
        sq (v.x ^ 2 + v.y ^ 2 + v.z ^ 2) ^ 2 = v.x ^ 2 + v.y ^ 2 + v.z ^ 2 →
        v ≠ ⟨0, 0, 0⟩ →
        Vector.normalizeF sq v =
          (some (v.x / Vector.magnitudeW sq v), some (v.y / Vector.magnitudeW sq v),
           some (v.z / Vector.magnitudeW sq v))) ∧
    (∀ (sq : α → α) (light : PointLight α), sq 0 = 0 →
        Point.subp light.position light.position = (⟨0, 0, 0⟩ : Vector α) ∧
        Vector.normalizeF sq (Point.subp light.position light.position) =
          (none, none, none)) := by
  have hzero : ∀ sq : α → α, sq 0 = 0 →
      Vector.normalizeF sq (⟨0, 0, 0⟩ : Vector α) = (none, none, none) := by
    intro sq hsq
    have hmag : Vector.magnitudeW sq (⟨0, 0, 0⟩ : Vector α) = 0 := by
      unfold Vector.magnitudeW
      rw [show ((0:α) ^ 2 + 0 ^ 2 + 0 ^ 2) = 0 by ring, hsq]
    simp [Vector.normalizeF, fdiv, hmag]
  refine ⟨hzero, ?_, ?_⟩
  · intro sq v hsq hv
    have hmag : Vector.magnitudeW sq v ≠ 0 := by
      intro h0
      unfold Vector.magnitudeW at h0
      rw [h0] at hsq
      have hsum : v.x ^ 2 + v.y ^ 2 + v.z ^ 2 = 0 := by
        rw [← hsq]
        ring
      have hx : v.x = 0 := by nlinarith [sq_nonneg v.x, sq_nonneg v.y, sq_nonneg v.z]
      have hy : v.y = 0 := by nlinarith [sq_nonneg v.x, sq_nonneg v.y, sq_nonneg v.z]
      have hz : v.z = 0 := by nlinarith [sq_nonneg v.x, sq_nonneg v.y, sq_nonneg v.z]
      apply hv
      cases v
      simp_all
    simp [Vector.normalizeF, fdiv, hmag]
  · intro sq light hsq
    have hv : Point.subp light.position light.position = (⟨0, 0, 0⟩ : Vector α) := by
      unfold Point.subp
      simp
    exact ⟨hv, by rw [hv]; exact hzero sq hsq⟩

/-- C10 witness: the zero vector yields all-NaN components; a genuine
square root for the 3-4-0 vector yields the exact normalization. -/
theorem C10_normalize_unguarded_witness :
    Vector.normalizeF (fun _ => (0 : ℚ)) (⟨0, 0, 0⟩ : Vector ℚ) =
      (none, none, none) ∧
    Vector.normalizeF (fun q => if q = 25 then 5 else 0) (⟨3, 4, 0⟩ : Vector ℚ) =
      (some (3 / 5), some (4 / 5), some 0) := by
  constructor
  · exact C10_normalize_unguarded.1 _ rfl
  · have h := C10_normalize_unguarded.2.1 (fun q => if q = 25 then 5 else 0)
      (⟨3, 4, 0⟩ : Vector ℚ) (by norm_num) (by simp)
    rw [h]
    norm_num [Vector.magnitudeW]

/-- C3 witness: the triple-glass-spheres configuration of the crate's
`find_n1_n2_intersection` test, at the third intersection. -/
theorem C3_refractive_walk_witness :
    (((⟨13/4, glassC⟩ : Intersection ℚ (Obj ℚ)).prepareComputations
        ⟨⟨0, 0, -4⟩, ⟨0, 0, 1⟩⟩ n1n2Xs).n1,
     ((⟨13/4, glassC⟩ : Intersection ℚ (Obj ℚ)).prepareComputations
        ⟨⟨0, 0, -4⟩, ⟨0, 0, 1⟩⟩ n1n2Xs).n2) =
      specRefractive n1n2Xs ⟨13/4, glassC⟩ :=
  C3_refractive_walk ⟨⟨0, 0, -4⟩, ⟨0, 0, 1⟩⟩ n1n2Xs ⟨13/4, glassC⟩
    (by norm_num [n1n2Xs, List.chain'_cons])
    ⟨⟨13/4, glassC⟩, by norm_num [n1n2Xs],
      by norm_num [ieq, objEq, floatEq, EPSILON]⟩

/-- C5 witness: a world whose single shape reports a hit at `t = 5` with
the light 10 units away is shadowed at the origin. -/
theorem C5_is_shadowed_iff_witness :
    World.isShadowed (fun _ => (10 : ℚ)) shadowWorld ⟨0, 0, 0⟩ = .ok true := by
  rw [C5_is_shadowed_iff (fun _ => (10 : ℚ)) shadowWorld ⟨⟨0, 0, 10⟩, WHITE⟩
    ⟨0, 0, 0⟩ rfl]
  refine ⟨[⟨5, shadowObj⟩], ⟨5, shadowObj⟩, ?_, ?_, ?_⟩
  · simp [World.intersectWorld, shadowWorld]
  · norm_num [Intersection.hit, List.filter]
  · norm_num [Vector.magnitudeW]

lemma mulPoint_IDENTITY (p : Point α) : (IDENTITY (α := α)).mulPoint p = p := by
  cases p
  simp [IDENTITY, Matrix.mulPoint, Matrix.mget]

lemma transpose_IDENTITY_mulVector (v : Vector α) :
    ((IDENTITY (α := α)).transpose).mulVector v = v := by
  cases v
  simp [IDENTITY, Matrix.transpose, Matrix.mulVector, Matrix.mget, range4]

lemma sphereNormalAt_identity (sq : α → α) (p : Point α) :
    sphereNormalAt sq IDENTITY p = Vector.normalizeW sq ⟨p.x, p.y, p.z⟩ := by
  simp only [sphereNormalAt, mulPoint_IDENTITY]
  rw [show Point.subp p ⟨0, 0, 0⟩ = (⟨p.x, p.y, p.z⟩ : Vector α) by simp [Point.subp],
    transpose_IDENTITY_mulVector]

lemma schlick_TIR (sq : α → α) (c : Computation α) (h1 : c.n1 > c.n2)
    (h2 : (c.n1 / c.n2) ^ 2 * (1 - (Vector.dot c.eyev c.normalv) ^ 2) > 1) :
    Computation.schlick sq c = 1 := by
  simp only [Computation.schlick]
  rw [if_pos h1, if_pos h2]

/-- C7: `schlick` returns exactly `1.0` on total internal reflection
(`n1 > n2` with `sin²θt > 1`), otherwise the Schlick blend
`r0 + (1 - r0)(1 - cos)⁵` with the adjusted cosine `cos θt` in place of
`cos θ` when `n1 > n2`; and in the concrete glass-sphere scenario — ray
origin `(0, 0, √2/2)`, direction `(0, 1, 0)`, reflectance at the second
intersection `t = √2/2` — the result is exactly `1`. -/
theorem C7_schlick_reflectance (sq : α → α) :
    (∀ c : Computation α,
        c.n1 > c.n2 →
        (c.n1 / c.n2) ^ 2 * (1 - (Vector.dot c.eyev c.normalv) ^ 2) > 1 →
        Computation.schlick sq c = 1) ∧
    (∀ c : Computation α,
        ¬ (c.n1 > c.n2 ∧
            (c.n1 / c.n2) ^ 2 * (1 - (Vector.dot c.eyev c.normalv) ^ 2) > 1) →
        Computation.schlick sq c =
          ((c.n1 - c.n2) / (c.n1 + c.n2)) ^ 2 +
            (1 - ((c.n1 - c.n2) / (c.n1 + c.n2)) ^ 2) *
              (1 - (if c.n1 > c.n2
                    then sq (1 - (c.n1 / c.n2) ^ 2 *
                        (1 - (Vector.dot c.eyev c.normalv) ^ 2))
                    else Vector.dot c.eyev c.normalv)) ^ 5) ∧
    (∀ r : α, r ^ 2 = 2 → 0 < r → sq 1 = 1 →
        Computation.schlick sq
          ((⟨r / 2, glassSphereObj sq⟩ : Intersection α (Obj α)).prepareComputations
            ⟨⟨0, 0, r / 2⟩, ⟨0, 1, 0⟩⟩
            [⟨-(r / 2), glassSphereObj sq⟩, ⟨r / 2, glassSphereObj sq⟩]) = 1) := by
  refine ⟨fun c => schlick_TIR sq c, ?_, ?_⟩
  · intro c hn
    simp only [Computation.schlick]
    by_cases h1 : c.n1 > c.n2
    · have h2 : ¬ ((c.n1 / c.n2) ^ 2 * (1 - (Vector.dot c.eyev c.normalv) ^ 2) > 1) :=
        fun hx => hn ⟨h1, hx⟩
      rw [if_pos h1, if_neg h2, if_pos h1]
    · rw [if_neg h1, if_neg h1]
  · intro r hr2 hrpos hsq1
    have hieq1 : ieq (⟨-(r / 2), glassSphereObj sq⟩ : Intersection α (Obj α))
        ⟨r / 2, glassSphereObj sq⟩ = false := by
      have habs : |(-(r / 2) - r / 2 : α)| = r := by
        rw [show (-(r / 2) - r / 2 : α) = -r by ring, abs_neg, abs_of_pos hrpos]
      have hlt : ¬ (|(-(r / 2) - r / 2 : α)| < EPSILON) := by
        rw [habs, EPSILON]
        intro h
        nlinarith
      simp [ieq, floatEq, hlt]
    have hieq2 : ieq (⟨r / 2, glassSphereObj sq⟩ : Intersection α (Obj α))
        ⟨r / 2, glassSphereObj sq⟩ = true := by
      simp [ieq, floatEq, objEq, glassSphereObj, epsilon_pos (α := α)]
    have hpair : n1n2Loop (⟨r / 2, glassSphereObj sq⟩ : Intersection α (Obj α))
        [⟨-(r / 2), glassSphereObj sq⟩, ⟨r / 2, glassSphereObj sq⟩] [] = (3/2, 1) := by
      have hri : (glassSphereObj sq).material.refractive_index = 3/2 := rfl
      have hoe : objEq (glassSphereObj sq) (glassSphereObj sq) = true := rfl
      simp [n1n2Loop, hieq1, hieq2, containerUpdate, topRefractive, hoe, hri]
    have hpoint : Ray.position (⟨⟨0, 0, r / 2⟩, ⟨0, 1, 0⟩⟩ : Ray α) (r / 2) =
        ⟨0, r / 2, r / 2⟩ := by
      simp [Ray.position, Point.addv, Vector.smul]
    have hnv0 : (glassSphereObj sq).normalAt (⟨0, r / 2, r / 2⟩ : Point α) =
        (⟨0, r / 2, r / 2⟩ : Vector α) := by
      show sphereNormalAt sq IDENTITY _ = _
      rw [sphereNormalAt_identity]
      unfold Vector.normalizeW Vector.magnitudeW
      rw [show ((0 : α) ^ 2 + (r / 2) ^ 2 + (r / 2) ^ 2) = 1 by
          linear_combination hr2 / 2, hsq1]
      simp
    have hn1 : ((⟨r / 2, glassSphereObj sq⟩ : Intersection α (Obj α)).prepareComputations
        ⟨⟨0, 0, r / 2⟩, ⟨0, 1, 0⟩⟩
        [⟨-(r / 2), glassSphereObj sq⟩, ⟨r / 2, glassSphereObj sq⟩]).n1 = 3/2 := by
      show (n1n2Loop (⟨r / 2, glassSphereObj sq⟩ : Intersection α (Obj α))
        [⟨-(r / 2), glassSphereObj sq⟩, ⟨r / 2, glassSphereObj sq⟩] []).1 = 3/2
      rw [hpair]
    have hn2 : ((⟨r / 2, glassSphereObj sq⟩ : Intersection α (Obj α)).prepareComputations
        ⟨⟨0, 0, r / 2⟩, ⟨0, 1, 0⟩⟩
        [⟨-(r / 2), glassSphereObj sq⟩, ⟨r / 2, glassSphereObj sq⟩]).n2 = 1 := by
      show (n1n2Loop (⟨r / 2, glassSphereObj sq⟩ : Intersection α (Obj α))
        [⟨-(r / 2), glassSphereObj sq⟩, ⟨r / 2, glassSphereObj sq⟩] []).2 = 1
      rw [hpair]
    have heye : ((⟨r / 2, glassSphereObj sq⟩ : Intersection α (Obj α)).prepareComputations
        ⟨⟨0, 0, r / 2⟩, ⟨0, 1, 0⟩⟩
        [⟨-(r / 2), glassSphereObj sq⟩, ⟨r / 2, glassSphereObj sq⟩]).eyev =
        (⟨0, -1, 0⟩ : Vector α) := by
      show Vector.neg (⟨0, 1, 0⟩ : Vector α) = _
      simp [Vector.neg]
    have hnormal : ((⟨r / 2, glassSphereObj sq⟩ : Intersection α (Obj α)).prepareComputations
        ⟨⟨0, 0, r / 2⟩, ⟨0, 1, 0⟩⟩
        [⟨-(r / 2), glassSphereObj sq⟩, ⟨r / 2, glassSphereObj sq⟩]).normalv =
        (⟨0, -(r / 2), -(r / 2)⟩ : Vector α) := by
      show (if Vector.dot ((glassSphereObj sq).normalAt
              (Ray.position (⟨⟨0, 0, r / 2⟩, ⟨0, 1, 0⟩⟩ : Ray α) (r / 2)))
              (Vector.neg (⟨0, 1, 0⟩ : Vector α)) < 0
            then Vector.neg ((glassSphereObj sq).normalAt
              (Ray.position (⟨⟨0, 0, r / 2⟩, ⟨0, 1, 0⟩⟩ : Ray α) (r / 2)))
            else (glassSphereObj sq).normalAt
              (Ray.position (⟨⟨0, 0, r / 2⟩, ⟨0, 1, 0⟩⟩ : Ray α) (r / 2))) = _
      rw [hpoint, hnv0]
      rw [if_pos]
      · simp [Vector.neg]
      · simp only [Vector.dot, Vector.neg]
        nlinarith
    exact schlick_TIR sq _
      (by rw [hn1, hn2]; norm_num)
      (by rw [hn1, hn2, heye, hnormal]; simp only [Vector.dot]; nlinarith)

/-- C7 witness: the scenario at `α = ℝ` with the genuine square root. -/
theorem C7_schlick_reflectance_witness :
    Computation.schlick Real.sqrt
      ((⟨Real.sqrt 2 / 2, glassSphereObj Real.sqrt⟩ : Intersection ℝ (Obj ℝ)).prepareComputations
        ⟨⟨0, 0, Real.sqrt 2 / 2⟩, ⟨0, 1, 0⟩⟩
        [⟨-(Real.sqrt 2 / 2), glassSphereObj Real.sqrt⟩,
         ⟨Real.sqrt 2 / 2, glassSphereObj Real.sqrt⟩]) = 1 :=
  (C7_schlick_reflectance Real.sqrt).2.2 (Real.sqrt 2)
    (Real.sq_sqrt (by norm_num)) (Real.sqrt_pos.mpr (by norm_num)) Real.sqrt_one

end RT
